import Mathlib

/-!
Shallow embedding of the XManager codelab notebook (src/codelab.ipynb), its
caip wrapper shell script, and the executor documentation shipped with it.
Python dicts are represented as association lists in key-insertion order,
matching Python 3.7+ dict semantics; numeric literals are represented
exactly (an integer, or a decimal mantissa with a power-of-ten shift for
float literals such as 0.01) — they are only ever stored and compared,
never used in arithmetic.
-/

/-- Exact representation of the notebook's numeric hyperparameter literals:
an integer literal, or a decimal literal `mantissa / 10 ^ shift`
(so 0.01 is `decimalVal 1 2` and 0.001 is `decimalVal 1 3`). -/
inductive HValue where
  | intVal (n : ℤ)
  | decimalVal (mantissa : ℤ) (shift : ℕ)
  deriving DecidableEq, Repr

/-- Embedding of `itertools.product(*lists)` over a list of value lists:
the first list varies slowest, exactly Python's enumeration order. -/
def itertoolsProduct {α : Type} : List (List α) → List (List α)
  | [] => [[]]
  | l :: ls => l.flatMap (fun x => (itertoolsProduct ls).map (fun rest => x :: rest))

/-- Embedding of the notebook's generic sweep expansion
`list(dict(zip(inputs, x)) for x in itertools.product(*inputs.values()))`:
each combination is the dict zipping the keys (in insertion order) with one
tuple of the Cartesian product of the value lists. -/
def sweepExpand {α : Type} (inputs : List (String × List α)) : List (List (String × α)) :=
  (itertoolsProduct (inputs.map Prod.snd)).map (fun x => (inputs.map Prod.fst).zip x)

/-- The notebook's concrete `inputs` mapping:
`{'batch_size': [64, 128], 'learning_rate': [0.01, 0.001]}`. -/
def sweepInputs : List (String × List HValue) :=
  [(("batch_size"), [.intVal 64, .intVal 128]),
   (("learning_rate"), [.decimalVal 1 2, .decimalVal 1 3])]

/-- The notebook's `hyperparameters` binding: generic sweep expansion of
`sweepInputs`. -/
def hyperparameters : List (List (String × HValue)) :=
  sweepExpand sweepInputs

/-- The end-to-end cell's `batch_sizes = [64, 128]`. -/
def batch_sizes : List HValue := [.intVal 64, .intVal 128]

/-- The end-to-end cell's `learning_rates = [0.01, 0.001]`. -/
def learning_rates : List HValue := [.decimalVal 1 2, .decimalVal 1 3]

/-- Embedding of `itertools.product(as, bs)` on exactly two sequences,
yielding pairs with the first sequence varying slowest. -/
def product2 {α β : Type} (as : List α) (bs : List β) : List (α × β) :=
  as.flatMap (fun a => bs.map (fun b => (a, b)))

/-- The end-to-end cell's `trials`: explicit construction
`list(dict([('batch_size', bs), ('learning_rate', lr)]) for (bs, lr) in
itertools.product(batch_sizes, learning_rates))`. -/
def trials : List (List (String × HValue)) :=
  (product2 batch_sizes learning_rates).map
    (fun p => [(("batch_size"), p.1), (("learning_rate"), p.2)])

/-- Modelled from the spec: the four-valued Status of a work unit — the
xmanager library's status type is not part of src/, only the notebook's
reads of `is_completed` and `is_failed` are. -/
inductive Status where
  | pending
  | running
  | completed
  | failed
  deriving DecidableEq, Repr

/-- Modelled from the spec: `is_completed` is the view that the Status is
Completed. -/
def Status.is_completed : Status → Bool
  | Status.completed => true
  | _ => false

/-- Modelled from the spec: `is_failed` is the view that the Status is
Failed. -/
def Status.is_failed : Status → Bool
  | Status.failed => true
  | _ => false

/-- Modelled from the spec: backend process state, from which the Local
executor derives a Status (liveness, then exit code). -/
inductive ProcState where
  | alive
  | exited (code : ℕ)
  deriving DecidableEq, Repr

/-- Modelled from the spec: the backend's state, a finite map from job
handles to process states. -/
abbrev Backend := List (ℕ × ProcState)

/-- Look up the process state the backend holds for a handle. -/
def Backend.findProc (b : Backend) (hd : ℕ) : Option ProcState :=
  (List.find? (fun p => p.1 == hd) b).map Prod.snd

/-- Modelled from the spec: `query(handle) -> Status` maps backend job
state to the four-valued Status and never mutates the backend; the
returned pair carries the (unchanged) backend state to make the absence of
side effects checkable. An unknown handle is still Pending. -/
def query (b : Backend) (hd : ℕ) : Status × Backend :=
  match b.findProc hd with
  | none => (Status.pending, b)
  | some ProcState.alive => (Status.running, b)
  | some (ProcState.exited 0) => (Status.completed, b)
  | some (ProcState.exited (_ + 1)) => (Status.failed, b)

/-- Modelled from the spec: a Job binds an executable and executor with an
argument mapping; for the orchestration claims only the args matter. -/
structure Job where
  args : List (String × HValue)
  deriving DecidableEq, Repr

/-- Modelled from the spec: a WorkUnit wraps one launched Job, carrying a
unit index, the backend handle once the asynchronous launch assigns one,
and a cached Status. -/
structure WorkUnit where
  index : ℕ
  job : Job
  handle : Option ℕ
  cached : Status
  deriving DecidableEq, Repr

/-- Modelled from the spec: `get_status` recomputes the WorkUnit's Status
purely from the Executor's latest `query` result (a unit whose launch has
not yet been assigned a handle is Pending); the cached field is not read. -/
def WorkUnit.get_status (u : WorkUnit) (b : Backend) : Status :=
  match u.handle with
  | none => Status.pending
  | some hd => (query b hd).1

/-- Modelled from the spec: an Experiment owns the ordered list of
WorkUnits it launched. -/
structure Experiment where
  units : List WorkUnit
  deriving DecidableEq, Repr

/-- Modelled from the spec: `add(job)` assigns the next unit index, records
the WorkUnit in Pending status with no backend handle yet, and enqueues the
launch; it returns without waiting for launch completion. -/
def Experiment.add (e : Experiment) (j : Job) : Experiment :=
  { units := e.units ++
      [{ index := e.units.length, job := j, handle := none, cached := Status.pending }] }

/-- Modelled from the spec: one orchestration event — a sequential `add`
call, or the asynchronous completion of some unit's launch submission
(assigning its backend handle), or a cached-status refresh; the latter two
may interleave arbitrarily with the `add` calls. -/
inductive Event where
  | addCall (j : Job)
  | launchDone (i : ℕ) (hd : ℕ)
  | statusRefresh (i : ℕ) (s : Status)
  deriving DecidableEq, Repr

/-- Apply one orchestration event to the Experiment state. -/
def Experiment.step (e : Experiment) : Event → Experiment
  | Event.addCall j => e.add j
  | Event.launchDone i hd =>
      { units := e.units.map (fun u => if u.index = i then { u with handle := some hd } else u) }
  | Event.statusRefresh i s =>
      { units := e.units.map (fun u => if u.index = i then { u with cached := s } else u) }

/-- Run a sequence of orchestration events from a starting Experiment. -/
def Experiment.run (e : Experiment) : List Event → Experiment
  | [] => e
  | ev :: evs => (e.step ev).run evs

/-- Recognize the events that are sequential `add` calls. -/
def Event.isAdd : Event → Bool
  | Event.addCall _ => true
  | _ => false

/-- Modelled from the spec: the Registry allocates experiment ids
monotonically; `create` persists the record and returns the fresh id. The
spec requires allocation to be atomic, so any set of concurrent create
calls is observed as some serial sequence of `create` steps. -/
structure Registry where
  nextId : ℕ
  records : List (ℕ × String)
  deriving DecidableEq, Repr

/-- Modelled from the spec: `create(title)` allocates the next id and
persists `{id, title}`. -/
def Registry.create (r : Registry) (title : String) : ℕ × Registry :=
  (r.nextId, { nextId := r.nextId + 1, records := r.records ++ [(r.nextId, title)] })

/-- Modelled from the spec: `create_experiment(title)` allocates a unique
integer id from the Registry and saves the experiment record. -/
def create_experiment (r : Registry) (title : String) : ℕ × Registry :=
  r.create title

/-- The ids handed out by a serial sequence of `create_experiment` calls. -/
def createMany (r : Registry) : List String → List ℕ
  | [] => []
  | t :: ts => (create_experiment r t).1 :: createMany (create_experiment r t).2 ts

/-- The closed set of accelerator kinds listed in the executors
documentation shipped with the repo. -/
inductive AccelKind where
  | P100
  | V100
  | P4
  | T4
  | A100
  | TPU_V2
  | TPU_V3
  deriving DecidableEq, Repr

/-- The TPU accelerator kinds, whose only supported count is 8 per the
executors documentation. -/
def AccelKind.isTpu : AccelKind → Bool
  | AccelKind.TPU_V2 => true
  | AccelKind.TPU_V3 => true
  | _ => false

/-- Modelled from the spec: the backend-declared valid count set of an
accelerator kind — only 8 is valid for the TPU kinds; the repo's material
does not restrict GPU counts. -/
def validCount (k : AccelKind) (c : ℤ) : Bool :=
  if k.isTpu then c == 8 else true

/-- Modelled from the spec: local validation errors — `validate()` reports
InvalidRequirement; ConflictingRequirement is reserved for `merge`. -/
inductive RequirementError where
  | InvalidRequirement
  | ConflictingRequirement
  deriving DecidableEq, Repr

/-- Modelled from the spec: JobRequirements — optional cpu (vCPUs) and ram
(bytes) quantities plus the accelerator entries that are set. -/
structure JobRequirements where
  cpu : Option ℚ := none
  ram : Option ℤ := none
  accelerators : List (AccelKind × ℤ) := []
  deriving DecidableEq, Repr

/-- Modelled from the spec: `validate()` — the xmanager library's
implementation is not part of src/ — fails with InvalidRequirement when a
quantity is negative, when more than one accelerator kind is set, or when
an accelerator count is outside its backend-declared valid set; it is a
pure check and performs no network call. -/
def JobRequirements.validate (r : JobRequirements) : Except RequirementError Unit :=
  if r.cpu.getD 0 < 0 ∨ r.ram.getD 0 < 0
      ∨ r.accelerators.any (fun p => decide (p.2 < 0)) = true
      ∨ 1 < r.accelerators.length
      ∨ r.accelerators.any (fun p => !validCount p.1 p.2) = true
  then Except.error RequirementError.InvalidRequirement
  else Except.ok ()

/-- The characters `tr -d '[],'` deletes in the caip wrapper script. -/
def trTargets : List Char := ['[', ']', ',']

/-- Embedding of the wrapper's `tr -d '[],'`: delete every occurrence of a
target character from the stream. -/
def trDelete (s : List Char) : List Char :=
  s.filter (fun c => !(trTargets.contains c))

/-- Join words with single spaces: the stream layout of a printed
space-separated argument sequence. -/
def joinWords : List (List Char) → List Char
  | [] => []
  | [w] => w
  | w :: ws => w ++ ' ' :: joinWords ws

/-- The default IFS whitespace characters bash splits unquoted expansions
on: space, tab and newline. -/
def isIfs (c : Char) : Bool :=
  c = ' ' || c = Char.ofNat 9 || c = Char.ofNat 10

/-- Accumulator-driven word split on the default IFS whitespace (empty
fields are dropped, as the shell's whitespace IFS splitting does). -/
def splitWordsAux : List Char → List Char → List (List Char)
  | [], acc => if acc.isEmpty then [] else [acc.reverse]
  | c :: rest, acc =>
      if isIfs c then
        if acc.isEmpty then splitWordsAux rest []
        else acc.reverse :: splitWordsAux rest []
      else splitWordsAux rest (c :: acc)

/-- Embedding of the shell's IFS word-splitting of an unquoted command
substitution. -/
def splitWords (s : List Char) : List (List Char) :=
  splitWordsAux s []

/-- The glob metacharacters that can still trigger bash pathname expansion
on an unquoted word after `tr -d '[],'` has removed the brackets: `*` and
`?`. -/
def globChars : List Char := ['*', '?']

/-- Modelled from the spec: `print_workerpool_address_args(sys.argv)` — its
python module `caip_utils` is not part of src/ — prints the command-line
arguments it received followed by the flags derived from the
backend-assigned worker-pool address environment variables, as one
space-separated stream. -/
def printShim (args flags : List (List Char)) : List Char :=
  joinWords (args ++ flags)

/-- Embedding of the caip wrapper lines
`ARGS=($(python3 -c "..." $@ | tr -d '[],'))` and
`./entrypoint.sh ${ARGS[@]}`: the printed stream is piped through
`tr -d '[],'`, word-split on the default IFS, and each resulting word
undergoes bash pathname expansion — the unquoted array assignment and
`${ARGS[@]}` are both subject to it. Pathname expansion depends on the
filesystem, so it is a parameter `expand`; bash leaves a word without glob
metacharacters unchanged, which is the only property the theorems assume
of `expand`. -/
def caipWrapper (expand : List Char → List (List Char))
    (args flags : List (List Char)) : List (List Char) :=
  (splitWords (trDelete (printShim args flags))).flatMap expand

/-- A notebook code cell abstracted to the top-level names its execution
binds, the global names it must read (names that must already be bound for
the cell to run), and the number of `experiment.add` call sites in its
body. -/
structure Cell where
  binds : List String
  reads : List String
  addCallSites : ℕ
  deriving DecidableEq, Repr

/-- The notebook's grid-search launch cell:
`async with xm_local.create_experiment(...) as experiment:` followed by
`for hparams in trials: experiment.add(xm.Job(...))` — it reads `trials`
(plus xm_local, xm, executable, executor) and contains one
`experiment.add` call site. -/
def gridSearchCell : Cell :=
  { binds := [("experiment"), ("hparams")],
    reads := [("xm_local"), ("trials"), ("xm"), ("executable"), ("executor")],
    addCallSites := 1 }

/-- The notebook's code cells in written order (src/codelab.ipynb),
abstracted to bound and read global names: license comment, shell install,
auth, bucket widget, flags setup, imports, first create-experiment,
packaging, executor, single-job launch, sweep expansion (which binds
`hyperparameters`), the grid-search launch cell, experiment listing, the
status loop, and the end-to-end cell (the first cell to bind `trials`). -/
def notebookCells : List Cell :=
  [{ binds := [], reads := [], addCallSites := 0 },
   { binds := [], reads := [], addCallSites := 0 },
   { binds := [("auth"), ("credentials"), ("project")], reads := [], addCallSites := 0 },
   { binds := [("display"), ("ipywidgets"), ("os"), ("bucket_changed"),
               ("GOOGLE_CLOUD_BUCKET_NAME")], reads := [], addCallSites := 0 },
   { binds := [("xm"), ("xm_local"), ("flags")], reads := [], addCallSites := 0 },
   { binds := [("itertools"), ("os"), ("xm"), ("xm_local")], reads := [], addCallSites := 0 },
   { binds := [("experiment")], reads := [("xm_local")], addCallSites := 0 },
   { binds := [("executable")], reads := [("experiment"), ("xm"), ("xm_local"), ("os")],
     addCallSites := 0 },
   { binds := [("executor")], reads := [("xm_local"), ("xm")], addCallSites := 0 },
   { binds := [("experiment")], reads := [("xm_local"), ("xm"), ("executable"), ("executor")],
     addCallSites := 1 },
   { binds := [("inputs"), ("hyperparameters"), ("pprint")], reads := [("itertools")],
     addCallSites := 0 },
   gridSearchCell,
   { binds := [], reads := [("xm_local")], addCallSites := 0 },
   { binds := [("i"), ("unit")], reads := [("experiment")], addCallSites := 0 },
   { binds := [("experiment"), ("executable"), ("batch_sizes"), ("learning_rates"),
               ("trials"), ("hyperparameters")],
     reads := [("xm_local"), ("xm"), ("os"), ("itertools")], addCallSites := 1 }]

/-- The global names bound by the first `idx` code cells when the notebook
runs in written order. -/
def boundBefore (idx : ℕ) : List String :=
  (notebookCells.take idx).flatMap Cell.binds

/-- Modelled cell execution: when every name the cell reads is already
bound, the cell runs, binding its names and reaching its `experiment.add`
call sites; otherwise Python raises NameError at the unresolved read — the
cell binds nothing and reaches none of its `experiment.add` call sites. -/
def runCell (env : List String) (c : Cell) : Option (List String) × ℕ :=
  if c.reads.all (fun n => env.contains n) then (some (env ++ c.binds), c.addCallSites)
  else (none, 0)

/-- Helper: the number of tuples produced by `itertoolsProduct` is the
product of the input lists' lengths. -/
theorem itertoolsProduct_length {α : Type} (ls : List (List α)) :
    (itertoolsProduct ls).length = (ls.map List.length).prod := by
  induction ls with
  | nil => rfl
  | cons l ls ih =>
    simp only [itertoolsProduct, List.length_flatMap, Function.comp_def, List.length_map, ih,
      List.map_const', List.sum_replicate, smul_eq_mul]
    simp [List.prod_cons]

/-- C1: expanding the sweep over
`{batch_size: [64, 128], learning_rate: [0.01, 0.001]}` yields exactly the
4 parameter mappings (64, 0.01), (64, 0.001), (128, 0.01), (128, 0.001),
in that order: the first parameter in key order varies slowest. -/
theorem sweep_example_enumeration :
    hyperparameters =
      [[(("batch_size"), .intVal 64), (("learning_rate"), .decimalVal 1 2)],
       [(("batch_size"), .intVal 64), (("learning_rate"), .decimalVal 1 3)],
       [(("batch_size"), .intVal 128), (("learning_rate"), .decimalVal 1 2)],
       [(("batch_size"), .intVal 128), (("learning_rate"), .decimalVal 1 3)]] := by
  decide

/-- C9: on the notebook's concrete example, the generic dict/zip/product
sweep expansion produces exactly the same list of dictionaries, in the same
order, as the end-to-end cell's explicit two-list construction. -/
theorem generic_sweep_refines_explicit : hyperparameters = trials := by
  decide

/-- C2: sweep expansion over any mapping produces exactly the product of
the lengths of the value sequences; an empty mapping yields exactly one
empty combination; a mapping containing an empty value sequence yields
zero combinations. -/
theorem sweep_counts {α : Type} (inputs : List (String × List α)) :
    (sweepExpand inputs).length = (inputs.map (fun p => p.2.length)).prod
    ∧ sweepExpand ([] : List (String × List α)) = [[]]
    ∧ (∀ p, p ∈ inputs → p.2 = [] → sweepExpand inputs = []) := by
  have hlen : (sweepExpand inputs).length = (inputs.map (fun p => p.2.length)).prod := by
    simp [sweepExpand, itertoolsProduct_length, List.map_map, Function.comp_def]
  refine ⟨hlen, rfl, ?_⟩
  intro p hp hnil
  have h0 : (inputs.map (fun p => p.2.length)).prod = 0 :=
    List.prod_eq_zero (List.mem_map.mpr ⟨p, hp, by simp [hnil]⟩)
  exact List.length_eq_zero.mp (hlen.trans h0)

/-- Witness for `sweep_counts`: a mapping with one empty value list yields
zero combinations, and the empty mapping yields one empty combination. -/
theorem sweep_counts_witness :
    sweepExpand [(("a"), ([] : List ℕ))] = []
    ∧ sweepExpand ([] : List (String × List ℕ)) = [[]] :=
  ⟨(sweep_counts [(("a"), ([] : List ℕ))]).2.2 (("a"), ([] : List ℕ)) (by simp) rfl,
   (sweep_counts ([] : List (String × List ℕ))).2.1⟩

/-- Helper: one step preserves the invariant that unit indices are exactly
0, 1, ... in list order. -/
theorem step_indices (e : Experiment) (ev : Event)
    (h : e.units.map WorkUnit.index = List.range e.units.length) :
    (e.step ev).units.map WorkUnit.index = List.range (e.step ev).units.length := by
  cases ev with
  | addCall j =>
    simp [Experiment.step, Experiment.add, h, List.range_succ]
  | launchDone i hd =>
    simp only [Experiment.step, List.map_map, List.length_map]
    rw [← h]
    congr 1
    funext u
    by_cases hu : u.index = i <;> simp [hu]
  | statusRefresh i s =>
    simp only [Experiment.step, List.map_map, List.length_map]
    rw [← h]
    congr 1
    funext u
    by_cases hu : u.index = i <;> simp [hu]

/-- Helper: one step adds a unit exactly when the event is an `add` call. -/
theorem step_length (e : Experiment) (ev : Event) :
    (e.step ev).units.length = e.units.length + (if ev.isAdd then 1 else 0) := by
  cases ev <;> simp [Experiment.step, Experiment.add, Event.isAdd]

/-- Helper: running any event sequence preserves the index invariant and
grows the unit list by exactly the number of `add` calls. -/
theorem run_indices (evs : List Event) : ∀ e : Experiment,
    e.units.map WorkUnit.index = List.range e.units.length →
    (e.run evs).units.map WorkUnit.index = List.range (e.run evs).units.length
    ∧ (e.run evs).units.length = e.units.length + evs.countP Event.isAdd := by
  induction evs with
  | nil =>
    intro e h
    exact ⟨h, by simp [Experiment.run]⟩
  | cons ev evs ih =>
    intro e h
    obtain ⟨h1, h2⟩ := ih (e.step ev) (step_indices e ev h)
    refine ⟨h1, ?_⟩
    show ((e.step ev).run evs).units.length = _
    rw [h2, step_length]
    cases hev : ev.isAdd <;> simp [List.countP_cons, hev]
    omega

/-- C5: starting from an empty experiment, any interleaving of sequential
`add` calls with asynchronous launch completions and status refreshes
leaves the WorkUnits bearing indices 0 through N-1 in exactly `add`-call
order, where N is the number of `add` calls. -/
theorem add_assigns_indices_in_order (evs : List Event) :
    ((Experiment.run { units := [] } evs).units.map WorkUnit.index)
      = List.range (evs.countP Event.isAdd) := by
  obtain ⟨h1, h2⟩ := run_indices evs { units := [] } (by simp)
  rw [h1, h2]
  simp

/-- C6: for every Status, `is_completed` and `is_failed` are never both
true, and both are false while the Status is Pending or Running. -/
theorem status_views_exclusive (s : Status) :
    ¬(s.is_completed = true ∧ s.is_failed = true)
    ∧ ((s = Status.pending ∨ s = Status.running) →
        s.is_completed = false ∧ s.is_failed = false) := by
  cases s <;> simp [Status.is_completed, Status.is_failed]

/-- Witness for `status_views_exclusive` at the Pending status. -/
theorem status_views_exclusive_witness :
    Status.pending.is_completed = false ∧ Status.pending.is_failed = false :=
  (status_views_exclusive Status.pending).2 (Or.inl rfl)

/-- C7: `query` is side-effect-free and idempotent — it returns the backend
unchanged, and a second query against the returned backend yields the same
Status — and `get_status` recomputes the Status purely from `query`, so a
direct mutation of the cached Status field is not observable on the next
`query`-backed read. -/
theorem query_idempotent_pure (b : Backend) (hd : ℕ) (u : WorkUnit) (s : Status) :
    (query b hd).2 = b
    ∧ (query (query b hd).2 hd).1 = (query b hd).1
    ∧ WorkUnit.get_status { u with cached := s } b = u.get_status b := by
  have h2 : (query b hd).2 = b := by
    unfold query
    rcases Backend.findProc b hd with _ | (_ | (_ | c)) <;> rfl
  refine ⟨h2, by rw [h2], ?_⟩
  unfold WorkUnit.get_status
  rfl

/-- Helper: a sequence of creations hands out consecutive ids starting at
the registry's next id. -/
theorem createMany_eq (titles : List String) : ∀ r : Registry,
    createMany r titles = List.range' r.nextId titles.length := by
  induction titles with
  | nil => intro r; rfl
  | cons t ts ih =>
    intro r
    show r.nextId :: createMany _ ts = _
    rw [ih]
    rfl

/-- C8: every `create_experiment` call draws a fresh id from the Registry:
any serialization of create calls yields pairwise-distinct ids (they are
the consecutive integers starting at the registry's allocation counter). -/
theorem registry_ids_distinct (r : Registry) (titles : List String) :
    createMany r titles = List.range' r.nextId titles.length
    ∧ (createMany r titles).Nodup := by
  have h := createMany_eq titles r
  exact ⟨h, h ▸ List.nodup_range' _ _⟩

/-- C4: every JobRequirements that requests TPU_V2 or TPU_V3 with a count
different from 8 fails `validate()` with InvalidRequirement (a pure check,
before any network call), and a requirement requesting such a kind with
count 8 and otherwise well-formed quantities validates successfully. -/
theorem tpu_count_validation (k : AccelKind) (hk : k.isTpu = true) :
    (∀ (r : JobRequirements) (c : ℤ), (k, c) ∈ r.accelerators → c ≠ 8 →
        r.validate = Except.error RequirementError.InvalidRequirement)
    ∧ (∀ (cpu : Option ℚ) (ram : Option ℤ), 0 ≤ cpu.getD 0 → 0 ≤ ram.getD 0 →
        (JobRequirements.mk cpu ram [(k, 8)]).validate = Except.ok ()) := by
  constructor
  · intro r c hmem hc8
    have hbad : r.accelerators.any (fun p => !validCount p.1 p.2) = true :=
      List.any_eq_true.mpr ⟨(k, c), hmem, by simp [validCount, hk, hc8]⟩
    unfold JobRequirements.validate
    rw [if_pos (Or.inr (Or.inr (Or.inr (Or.inr hbad))))]
  · intro cpu ram hcpu hram
    have h1 : ¬(cpu.getD 0 < 0) := not_lt.mpr hcpu
    have h2 : ¬(ram.getD 0 < 0) := not_lt.mpr hram
    simp [JobRequirements.validate, h1, h2, validCount]

/-- Witness for `tpu_count_validation` at TPU_V2: count 5 is rejected with
InvalidRequirement and count 8 validates. -/
theorem tpu_count_validation_witness :
    (JobRequirements.mk none none [(AccelKind.TPU_V2, 5)]).validate
        = Except.error RequirementError.InvalidRequirement
    ∧ (JobRequirements.mk none none [(AccelKind.TPU_V2, 8)]).validate = Except.ok () :=
  ⟨(tpu_count_validation AccelKind.TPU_V2 rfl).1
      (JobRequirements.mk none none [(AccelKind.TPU_V2, 5)]) 5 (by simp) (by decide),
   (tpu_count_validation AccelKind.TPU_V2 rfl).2 none none (by simp) (by simp)⟩

/-- Helper: deleting the tr targets is the identity on a stream that
contains none of them. -/
theorem trDelete_eq_self (s : List Char) (h : ∀ c ∈ s, trTargets.contains c = false) :
    trDelete s = s := by
  unfold trDelete
  rw [List.filter_eq_self]
  intro a ha
  simpa using h a ha

/-- Helper: every character of a joined word stream is a space or comes
from one of the words. -/
theorem joinWords_chars (ws : List (List Char)) (c : Char) (hc : c ∈ joinWords ws) :
    c = ' ' ∨ ∃ w ∈ ws, c ∈ w := by
  induction ws with
  | nil => cases hc
  | cons w ws ih =>
    cases ws with
    | nil =>
      right
      exact ⟨w, List.mem_singleton_self w, hc⟩
    | cons w2 ws2 =>
      have hc2 : c ∈ w ++ ' ' :: joinWords (w2 :: ws2) := hc
      rcases List.mem_append.mp hc2 with hw | htail
      · exact Or.inr ⟨w, List.mem_cons_self w _, hw⟩
      · rcases List.mem_cons.mp htail with hsp | hrest
        · exact Or.inl hsp
        · rcases ih hrest with hsp | ⟨w3, hw3, hcw3⟩
          · exact Or.inl hsp
          · exact Or.inr ⟨w3, List.mem_cons_of_mem w hw3, hcw3⟩

/-- Helper: the word splitter consumes an IFS-free word into its
accumulator. -/
theorem splitWordsAux_word (w : List Char) : ∀ (rest acc : List Char),
    (∀ c ∈ w, isIfs c = false) →
    splitWordsAux (w ++ rest) acc = splitWordsAux rest (w.reverse ++ acc) := by
  induction w with
  | nil => intro rest acc _; rfl
  | cons c w ih =>
    intro rest acc hw
    have hc : isIfs c = false := hw c (List.mem_cons_self c w)
    show splitWordsAux (c :: (w ++ rest)) acc = _
    rw [splitWordsAux, if_neg (by simp [hc]),
      ih rest (c :: acc) (fun d hd => hw d (List.mem_cons_of_mem c hd))]
    simp

/-- Helper: word-splitting a space-joined stream of nonempty, IFS-free
words recovers exactly those words. -/
theorem splitWords_joinWords (ws : List (List Char))
    (h : ∀ w ∈ ws, w ≠ [] ∧ ∀ c ∈ w, isIfs c = false) :
    splitWords (joinWords ws) = ws := by
  induction ws with
  | nil => rfl
  | cons w ws ih =>
    obtain ⟨hne, hns⟩ := h w (List.mem_cons_self w ws)
    cases ws with
    | nil =>
      show splitWordsAux (joinWords [w]) [] = [w]
      have : joinWords [w] = w ++ [] := by simp [joinWords]
      rw [this, splitWordsAux_word w [] [] hns]
      have hre : w.reverse ++ [] = w.reverse := List.append_nil _
      rw [hre, splitWordsAux]
      rw [if_neg (by simp [hne])]
      simp
    | cons w2 ws2 =>
      show splitWordsAux (w ++ (' ' :: joinWords (w2 :: ws2))) [] = w :: w2 :: ws2
      rw [splitWordsAux_word w (' ' :: joinWords (w2 :: ws2)) [] hns]
      have hre : w.reverse ++ [] = w.reverse := List.append_nil _
      rw [hre, splitWordsAux, if_pos (by decide), if_neg (by simp [hne])]
      have htail := ih (fun u hu => h u (List.mem_cons_of_mem w hu))
      simp only [splitWords] at htail
      rw [htail]
      simp

/-- Helper: bash pathname expansion — constrained only to leave glob-free
words unchanged — is the identity on a list of glob-free words. -/
theorem flatMap_expand_id (expand : List Char → List (List Char))
    (hexp : ∀ w, w.all (fun c => !(globChars.contains c)) = true → expand w = [w]) :
    ∀ ws : List (List Char), (∀ w ∈ ws, ∀ c ∈ w, globChars.contains c = false) →
      ws.flatMap expand = ws := by
  intro ws
  induction ws with
  | nil => intro _; rfl
  | cons w ws ih =>
    intro h
    have hw : expand w = [w] := by
      apply hexp
      rw [List.all_eq_true]
      intro c hc
      simpa using h w (List.mem_cons_self w ws) c hc
    show expand w ++ ws.flatMap expand = w :: ws
    rw [hw, ih (fun u hu c hc => h u (List.mem_cons_of_mem w hu) c hc)]
    rfl

/-- C3 counterexample: even with pathname expansion disabled (the
expansion that leaves every word unchanged), an argument whose content is
the single character `,` is not forwarded to the entry point — `tr -d
'[],'` deletes the character and the now-empty word vanishes in the
shell's word-splitting, so the entry point receives no corresponding
argument. -/
theorem shim_comma_counterexample :
    ¬([([','] : List Char)] <+: caipWrapper (fun w => [w]) [[',']] []) := by
  decide

/-- C3 (amended): under any pathname expansion that leaves glob-free words
unchanged, every command-line argument whose content contains none of
`[`, `]`, `,`, no default-IFS whitespace (space, tab, newline) and no glob
metacharacter (`*`, `?`) is forwarded to the packaged entry point
unmodified, with only the flags derived from backend-assigned environment
variables appended after the arguments. -/
theorem shim_forwards_clean_args (expand : List Char → List (List Char))
    (args flags : List (List Char))
    (hexp : ∀ w, w.all (fun c => !(globChars.contains c)) = true → expand w = [w])
    (h : ∀ w ∈ args ++ flags, w ≠ [] ∧ ∀ c ∈ w,
        trTargets.contains c = false ∧ isIfs c = false ∧ globChars.contains c = false) :
    caipWrapper expand args flags = args ++ flags := by
  unfold caipWrapper printShim
  rw [trDelete_eq_self, splitWords_joinWords]
  · exact flatMap_expand_id expand hexp (args ++ flags)
      (fun w hw c hc => ((h w hw).2 c hc).2.2)
  · intro w hw
    exact ⟨(h w hw).1, fun c hc => ((h w hw).2 c hc).2.1⟩
  · intro c hc
    rcases joinWords_chars (args ++ flags) c hc with hsp | ⟨w, hw, hcw⟩
    · rw [hsp]
      rfl
    · exact ((h w hw).2 c hcw).1

/-- Witness for `shim_forwards_clean_args`: with the identity expansion,
the single argument word "ab" and one appended flag word "c" pass
through. -/
theorem shim_forwards_clean_args_witness :
    caipWrapper (fun w => [w]) [['a', 'b']] [['c']] = [['a', 'b'], ['c']] :=
  shim_forwards_clean_args (fun w => [w]) [['a', 'b']] [['c']]
    (fun w _ => rfl) (by decide)

/-- C10: the grid-search launch cell is the 12th code cell; no earlier
cell binds `trials` (the preceding expansion cell binds `hyperparameters`
instead) while the grid-search cell reads `trials`, so executing the cells
in written order raises NameError in that cell and it adds no Job. -/
theorem grid_cell_name_error :
    notebookCells.take 12 = notebookCells.take 11 ++ [gridSearchCell]
    ∧ (boundBefore 11).contains ("trials") = false
    ∧ (boundBefore 11).contains ("hyperparameters") = true
    ∧ gridSearchCell.reads.contains ("trials") = true
    ∧ runCell (boundBefore 11) gridSearchCell = (none, 0) := by
  decide
